import Mathlib

/-!
Verification of the blockchain execution engine of this repository
(`node/src/blockchain.rs` and the batch-drain variant in
`examples/src/blockchain.rs`), shallowly embedded in Lean.

Modelling conventions:
* Rust machine integers (`u32` addresses/gas, `u64` balances and block
  numbers) are modelled as `Nat`.  Rust's checked arithmetic panics on
  overflow (it never silently produces a wrong in-range value), so every
  non-panicking execution agrees with the `Nat` semantics; where a field's
  width matters for the wire format, theorems carry explicit `< 2 ^ 32`
  (resp. `< 2 ^ 64`) range hypotheses and the byte encoders truncate
  exactly as the `u32`/`u64` writers do.
* `BTreeMap<Address, Balance>` is modelled as an association list sorted
  strictly by key (`sortedKeys`), the representation invariant a `BTreeMap`
  maintains; map lemmas assume it where they need it.
* `bytes::Bytes` buffers are `List Nat` (each element a byte value); the
  panicking reads of the `bytes` crate (`get_u8` on an empty buffer) and
  the `unreachable!` arm of `Transaction::deserialize` are modelled as
  `Option` failure (`none`).
* `&mut self` methods are state-passing functions returning the outcome
  together with the updated receiver.
-/

namespace Sui

abbrev Address := Nat
abbrev Balance := Nat
abbrev Gas := Nat

/-- `TX_MINT_GAS` from `node/src/blockchain.rs`. -/
def TX_MINT_GAS : Gas := 2

/-- `TX_TRANSFER_GAS` from `node/src/blockchain.rs`. -/
def TX_TRANSFER_GAS : Gas := 2

/-- `struct Mint` from `node/src/blockchain.rs`. -/
structure Mint where
  «to» : Address
  amount : Balance
  gas : Gas
deriving DecidableEq, Repr

/-- `struct Transfer` from `node/src/blockchain.rs` (`from» is a Lean
keyword, hence the guillemets). -/
structure Transfer where
  «from» : Address
  «to» : Address
  amount : Balance
  gas : Gas
deriving DecidableEq, Repr

/-- `enum Transaction` from `node/src/blockchain.rs`. -/
inductive Transaction where
  | Mint (m : Mint)
  | Transfer (t : Transfer)
deriving DecidableEq, Repr

/-- `Transaction::gas` from `node/src/blockchain.rs`. -/
def Transaction.gas : Transaction → Gas
  | .Mint m => m.gas
  | .Transfer t => t.gas

/-! ### Byte-buffer primitives (the `bytes` crate operations used) -/

/-- Big-endian byte encoding of the low `k` bytes of `n`, most significant
byte first — the truncation a `put_u32`/`put_u64` writer performs. -/
def putBE : Nat → Nat → List Nat
  | 0, _ => []
  | k + 1, n => n / 256 ^ k % 256 :: putBE k n

/-- `BufMut::put_u8`: one byte, truncated to 8 bits. -/
def putU8 (n : Nat) : List Nat := [n % 256]

/-- `BufMut::put_u32`: 4 bytes big-endian. -/
def putU32 (n : Nat) : List Nat := putBE 4 n

/-- `BufMut::put_u64`: 8 bytes big-endian. -/
def putU64 (n : Nat) : List Nat := putBE 8 n

/-- `BytesMut::resize(len, 0)`: truncate or zero-pad to exactly `len`. -/
def resize (len : Nat) (l : List Nat) : List Nat :=
  (l.take len) ++ List.replicate (len - l.length) 0

/-- `Buf::get_u8`: consume one byte; the `bytes` crate panics when the
buffer is exhausted, modelled as `none`. -/
def getU8 : List Nat → Option (Nat × List Nat)
  | [] => none
  | b :: rest => some (b, rest)

/-- Consume `k` bytes, folding them big-endian onto `acc`. -/
def getBE (acc : Nat) : Nat → List Nat → Option (Nat × List Nat)
  | 0, l => some (acc, l)
  | _ + 1, [] => none
  | k + 1, b :: rest => getBE (acc * 256 + b) k rest

/-- `Buf::get_u32`: consume 4 bytes big-endian. -/
def getU32 (l : List Nat) : Option (Nat × List Nat) := getBE 0 4 l

/-- `Buf::get_u64`: consume 8 bytes big-endian. -/
def getU64 (l : List Nat) : Option (Nat × List Nat) := getBE 0 8 l

/-- `Transaction::serialize` from `node/src/blockchain.rs`: tag byte, then
big-endian fields, then `resize` to the fixed length (17 for `Mint`,
21 for `Transfer`, both no-ops on the already-full buffer). -/
def Transaction.serialize : Transaction → List Nat
  | .Mint m =>
      resize 17 (putU8 0 ++ putU32 m.«to» ++ putU64 m.amount ++ putU32 m.gas)
  | .Transfer t =>
      resize 21
        (putU8 1 ++ putU32 t.«from» ++ putU32 t.«to» ++ putU64 t.amount ++ putU32 t.gas)

/-- `Transaction::deserialize` from `node/src/blockchain.rs`: reads the tag
and dispatches; the `unreachable!` arm on an unrecognized tag (a process
abort in the source) and buffer exhaustion are modelled as `none`.  The
unconsumed remainder of the buffer is returned to the caller. -/
def Transaction.deserialize (data : List Nat) : Option (Transaction × List Nat) := do
  let (ttype, data) ← getU8 data
  match ttype with
  | 0 => do
      let («to», data) ← getU32 data
      let (amount, data) ← getU64 data
      let (gas, data) ← getU32 data
      pure (Transaction.Mint ⟨«to», amount, gas⟩, data)
  | 1 => do
      let (f, data) ← getU32 data
      let («to», data) ← getU32 data
      let (amount, data) ← getU64 data
      let (gas, data) ← getU32 data
      pure (Transaction.Transfer ⟨f, «to», amount, gas⟩, data)
  | _ => none

/-- A transaction whose fields fit the Rust field types (`u32` addresses
and gas, `u64` amount). -/
def Transaction.wf : Transaction → Prop
  | .Mint m => m.«to» < 2 ^ 32 ∧ m.amount < 2 ^ 64 ∧ m.gas < 2 ^ 32
  | .Transfer t =>
      t.«from» < 2 ^ 32 ∧ t.«to» < 2 ^ 32 ∧ t.amount < 2 ^ 64 ∧ t.gas < 2 ^ 32

instance : DecidablePred Transaction.wf := fun tx => by
  cases tx <;> (unfold Transaction.wf; infer_instance)

/-! ### The ledger (`struct State`, a `BTreeMap<Address, Balance>`) -/

/-- `BTreeMap::get`: the value at the first entry with the given key. -/
def lookup : List (Address × Balance) → Address → Option Balance
  | [], _ => none
  | (k, b) :: rest, a => if a = k then some b else lookup rest a

/-- `entry(a).and_modify(|e| *e += v).or_insert(v)` on a `BTreeMap`
represented as a key-sorted association list: add `v` to `a`'s balance,
inserting the entry at `v` (in key order) when absent. -/
def credit : List (Address × Balance) → Address → Balance → List (Address × Balance)
  | [], a, v => [(a, v)]
  | (k, b) :: rest, a, v =>
      if a < k then (a, v) :: (k, b) :: rest
      else if a = k then (k, b + v) :: rest
      else (k, b) :: credit rest a v

/-- `OccupiedEntry::insert(w)`: overwrite the (first) entry with key `a`. -/
def setBal : List (Address × Balance) → Address → Balance → List (Address × Balance)
  | [], _, _ => []
  | (k, b) :: rest, a, w =>
      if a = k then (k, w) :: rest else (k, b) :: setBal rest a w

/-- Strictly increasing list of addresses. -/
def strictSorted : List Address → Bool
  | [] => true
  | [_] => true
  | k :: k' :: rest => decide (k < k') && strictSorted (k' :: rest)

/-- The `BTreeMap` representation invariant: keys strictly increasing. -/
def sortedKeys (l : List (Address × Balance)) : Bool :=
  strictSorted (l.map Prod.fst)

/-- `struct State` from `node/src/blockchain.rs`. -/
structure State where
  balances : List (Address × Balance)
deriving DecidableEq, Repr

/-- `State::new`. -/
def State.new : State := ⟨[]⟩

/-- `State::apply_tx` from `node/src/blockchain.rs`, state-passing: the
returned `Bool` is the Rust return value, the returned `State` the
receiver after the call (unchanged on `false`).  `Mint` credits
unconditionally; `Transfer` requires an existing sender entry with
balance at least `amount`, then debits the sender and credits the
recipient. -/
def State.apply_tx (s : State) : Transaction → Bool × State
  | .Mint t => (true, ⟨credit s.balances t.«to» t.amount⟩)
  | .Transfer t =>
      match lookup s.balances t.«from» with
      | none => (false, s)
      | some current_val =>
          if current_val < t.amount then (false, s)
          else
            (true,
              ⟨credit (setBal s.balances t.«from» (current_val - t.amount))
                t.«to» t.amount⟩)

/-! ### Blocks -/

/-- `enum ExecutionError` from `node/src/blockchain.rs`. -/
inductive ExecutionError where
  | GasLimitReached
  | InvalidTransaction
deriving DecidableEq, Repr

/-- `struct Block` from `node/src/blockchain.rs`. -/
structure Block where
  number : Nat
  transactions : List Transaction
  state : State
  gas_used : Gas
  gas_limit : Gas
deriving DecidableEq, Repr

/-- `Block::genesis`. -/
def Block.genesis (gas_limit : Gas) : Block :=
  { number := 0
    transactions := []
    state := State.new
    gas_used := 0
    gas_limit := gas_limit }

/-- `Block::next`. -/
def Block.next (b : Block) : Block :=
  { number := b.number + 1
    transactions := []
    state := b.state
    gas_used := 0
    gas_limit := b.gas_limit }

/-- `Block::try_apply_tx` from `node/src/blockchain.rs`, state-passing:
the returned `Except` is the Rust `Result`, the returned `Block` the
receiver after the call (unchanged on any error). -/
def Block.try_apply_tx (b : Block) (tx : Transaction) :
    Except ExecutionError Unit × Block :=
  if b.gas_used + tx.gas > b.gas_limit then
    (.error .GasLimitReached, b)
  else
    match b.state.apply_tx tx with
    | (true, s') =>
        (.ok (),
          { b with
            state := s'
            gas_used := b.gas_used + tx.gas
            transactions := b.transactions ++ [tx] })
    | (false, _) => (.error .InvalidTransaction, b)

/-- `Block`s reachable from some genesis block by `next` transitions and
`try_apply_tx` calls, whatever their outcomes (on an error the receiver
is returned unchanged, so only the `.2` projection is needed). -/
inductive Reachable : Block → Prop
  | genesis (gas_limit : Gas) : Reachable (Block.genesis gas_limit)
  | next {b : Block} : Reachable b → Reachable b.next
  | tryApply {b : Block} (tx : Transaction) :
      Reachable b → Reachable (b.try_apply_tx tx).2

/-- Total gas of a transaction list. -/
def sumGas (txs : List Transaction) : Gas := (txs.map Transaction.gas).sum

/-- Sum of all stored balances of a ledger: the total supply. -/
def totalSupply (s : State) : Nat := (s.balances.map Prod.snd).sum

/-- Apply a sequence of transactions to a ledger, keeping the (unchanged)
state of a rejected transaction. -/
def runTxs (s : State) : List Transaction → State
  | [] => s
  | tx :: rest => runTxs (s.apply_tx tx).2 rest

/-- Sum of the amounts of the `Mint` transactions accepted along a run of
`runTxs` (every accepted non-`Mint` contributes nothing). -/
def acceptedMintSum (s : State) : List Transaction → Nat
  | [] => 0
  | tx :: rest =>
      (match tx, (s.apply_tx tx).1 with
        | .Mint m, true => m.amount
        | _, _ => 0) +
      acceptedMintSum (s.apply_tx tx).2 rest

/-! ### The batch-drain block builder of `examples/src/blockchain.rs`

A superseded iteration of the engine with its own transaction type
(no per-transaction gas field; gas cost is fixed per variant) and a
block builder that drains a whole batch at once.  Its `State::apply_tx`
is textually the same algorithm as the one above.
-/

namespace Examples

/-- `BLOCK_GAS_LIMIT` from `examples/src/blockchain.rs`. -/
def BLOCK_GAS_LIMIT : Gas := 20

/-- `TX_MINT_GAS` from `examples/src/blockchain.rs`. -/
def TX_MINT_GAS : Gas := 5

/-- `TX_TRANSFER_GAS` from `examples/src/blockchain.rs`. -/
def TX_TRANSFER_GAS : Gas := 2

/-- `struct Mint` from `examples/src/blockchain.rs`. -/
structure Mint where
  «to» : Address
  amount : Balance
deriving DecidableEq, Repr

/-- `struct Transfer` from `examples/src/blockchain.rs`. -/
structure Transfer where
  «from» : Address
  «to» : Address
  amount : Balance
deriving DecidableEq, Repr

/-- `enum Transaction` from `examples/src/blockchain.rs`. -/
inductive Transaction where
  | Mint (m : Mint)
  | Transfer (t : Transfer)
deriving DecidableEq, Repr

/-- The `gas_cost` computation in `Block::create_next_from_txn`. -/
def Transaction.gas_cost : Transaction → Gas
  | .Mint _ => TX_MINT_GAS
  | .Transfer _ => TX_TRANSFER_GAS

/-- `struct State` from `examples/src/blockchain.rs`. -/
structure State where
  balances : List (Address × Balance)
deriving DecidableEq, Repr

/-- `State::new` from `examples/src/blockchain.rs`. -/
def State.new : State := ⟨[]⟩

/-- `State::apply_tx` from `examples/src/blockchain.rs` (textually the
same algorithm as the node crate's). -/
def State.apply_tx (s : State) : Transaction → Bool × State
  | .Mint t => (true, ⟨credit s.balances t.«to» t.amount⟩)
  | .Transfer t =>
      match lookup s.balances t.«from» with
      | none => (false, s)
      | some current_val =>
          if current_val < t.amount then (false, s)
          else
            (true,
              ⟨credit (setBal s.balances t.«from» (current_val - t.amount))
                t.«to» t.amount⟩)

/-- `struct Block` from `examples/src/blockchain.rs`. -/
structure Block where
  number : Nat
  transactions : List Transaction
  final_state : State
deriving DecidableEq, Repr

/-- `Block::genesis` from `examples/src/blockchain.rs`. -/
def Block.genesis : Block :=
  { number := 0, transactions := [], final_state := State.new }

/-- The `loop` inside `Block::create_next_from_txn`, together with the
trailing `rejected_txs.extend(txs)`: drain the batch front to back;
a transaction whose gas cost would exceed `BLOCK_GAS_LIMIT` is pushed to
the rejected list and the loop breaks, after which every remaining
transaction is appended to the rejected list; an invalid transaction is
pushed to the rejected list and the loop continues.  Returns the final
state, gas used, accepted and rejected lists. -/
def applyLoop : List Transaction → State → Gas → List Transaction →
    List Transaction → State × Gas × List Transaction × List Transaction
  | [], next_state, gas_used, accepted, rejected =>
      (next_state, gas_used, accepted, rejected)
  | tx :: rest, next_state, gas_used, accepted, rejected =>
      if gas_used + tx.gas_cost > BLOCK_GAS_LIMIT then
        (next_state, gas_used, accepted, rejected ++ tx :: rest)
      else
        match next_state.apply_tx tx with
        | (true, s') =>
            applyLoop rest s' (gas_used + tx.gas_cost) (accepted ++ [tx]) rejected
        | (false, s') => applyLoop rest s' gas_used accepted (rejected ++ [tx])

/-- `Block::create_next_from_txn` from `examples/src/blockchain.rs`:
drain a batch into the successor block, returning it together with the
rejected transactions. -/
def Block.create_next_from_txn (b : Block) (txs : List Transaction) :
    Block × List Transaction :=
  let r := applyLoop txs b.final_state 0 [] []
  ({ number := b.number + 1, transactions := r.2.2.1, final_state := r.1 },
    r.2.2.2)

end Examples

/-! ### `Block::root`: `std::collections::hash_map::DefaultHasher`

`DefaultHasher` is SipHash-1-3 with both keys zero.  A `Hasher` consumes
a byte stream; the result depends only on the concatenated bytes, so the
model first lays out the byte stream the derived `Hash` impls feed in
(`write_u64`/`write_u32` write native-endian — little-endian — bytes,
a derived enum `Hash` first hashes the `isize` discriminant as 8 bytes,
`Vec` and `BTreeMap` write their length as a `usize` prefix and then the
elements in order, `BTreeMap` elements as key/value pairs) and then runs
SipHash-1-3 over it.  All 64-bit words are `Nat`s kept below `2 ^ 64`
with explicit masking. -/

/-- Little-endian byte encoding of the low `k` bytes of `n`
(`to_ne_bytes` on a little-endian machine). -/
def leBytes : Nat → Nat → List Nat
  | 0, _ => []
  | k + 1, n => n % 256 :: leBytes k (n / 256)

/-- Little-endian word value of at most 8 buffered bytes. -/
def leWord (bytes : List Nat) : Nat :=
  bytes.foldr (fun b acc => acc * 256 + b) 0

/-- The four 64-bit words of a SipHash state. -/
structure SipState where
  v0 : Nat
  v1 : Nat
  v2 : Nat
  v3 : Nat
deriving Repr

/-- One SIPROUND of the SipHash permutation. -/
def sipround (s : SipState) : SipState :=
  let r := fun (x k : Nat) => ((x <<< k) ||| (x >>> (64 - k))) % 2 ^ 64
  let v0 := (s.v0 + s.v1) % 2 ^ 64
  let v1 := r s.v1 13 ^^^ v0
  let v0 := r v0 32
  let v2 := (s.v2 + s.v3) % 2 ^ 64
  let v3 := r s.v3 16 ^^^ v2
  let v0 := (v0 + v3) % 2 ^ 64
  let v3 := r v3 21 ^^^ v0
  let v2 := (v2 + v1) % 2 ^ 64
  let v1 := r v1 17 ^^^ v2
  let v2 := r v2 32
  ⟨v0, v1, v2, v3⟩

/-- Absorb one 8-byte message word with SipHash-1-3's single
compression round. -/
def sipCompress (s : SipState) (m : Nat) : SipState :=
  let s := { s with v3 := s.v3 ^^^ m }
  let s := sipround s
  { s with v0 := s.v0 ^^^ m }

/-- Absorb full 8-byte blocks, then the final block (`(len & 0xff) << 56`
over the remaining bytes), xor `0xff` into `v2`, run SipHash-1-3's three
finalization rounds and combine. -/
def sipFinish (len : Nat) : SipState → List Nat → Nat
  | s, b0 :: b1 :: b2 :: b3 :: b4 :: b5 :: b6 :: b7 :: rest =>
      sipFinish len (sipCompress s (leWord [b0, b1, b2, b3, b4, b5, b6, b7])) rest
  | s, tail =>
      let b := (len % 256) * 2 ^ 56 ||| leWord tail
      let s := sipCompress s b
      let s := { s with v2 := s.v2 ^^^ 0xff }
      let s := sipround (sipround (sipround s))
      s.v0 ^^^ s.v1 ^^^ s.v2 ^^^ s.v3

/-- SipHash-1-3 of a byte stream with both keys zero: exactly what
`DefaultHasher::new()` followed by `write`s of the stream and `finish`
computes. -/
def siphash13 (msg : List Nat) : Nat :=
  sipFinish msg.length
    ⟨0x736f6d6570736575, 0x646f72616e646f6d, 0x6c7967656e657261, 0x7465646279746573⟩
    msg

/-- Byte stream the derived `Hash` for `Transaction` feeds the hasher:
the `isize` discriminant, then the variant's fields in order. -/
def Transaction.hashStream : Transaction → List Nat
  | .Mint m => leBytes 8 0 ++ leBytes 4 m.«to» ++ leBytes 8 m.amount ++ leBytes 4 m.gas
  | .Transfer t =>
      leBytes 8 1 ++ leBytes 4 t.«from» ++ leBytes 4 t.«to» ++
        leBytes 8 t.amount ++ leBytes 4 t.gas

/-- Byte stream the derived `Hash` for `State` feeds the hasher: the
`BTreeMap`'s length prefix, then each key/value pair in key order. -/
def State.hashStream (s : State) : List Nat :=
  leBytes 8 s.balances.length ++
    s.balances.foldr (fun p acc => leBytes 4 p.1 ++ leBytes 8 p.2 ++ acc) []

/-- `Block::root` from `node/src/blockchain.rs`: hash `number`, the
transaction list (length-prefixed), the ledger and `gas_used` — and
nothing else, in particular not `gas_limit` — with `DefaultHasher`. -/
def Block.root (b : Block) : Nat :=
  siphash13
    (leBytes 8 b.number ++
      (leBytes 8 b.transactions.length ++
        b.transactions.foldr (fun tx acc => tx.hashStream ++ acc) []) ++
      b.state.hashStream ++
      leBytes 4 b.gas_used)

/-! ### The concrete scenario of spec §8 (`ALICE = 1`, `BOB = 2`,
`gas_limit = 20`) -/

/-- Genesis block of the spec §8 scenario. -/
def scenarioGenesis : Block := Block.genesis 20

/-- The non-empty successor block of the spec §8 scenario: three accepted
transactions (`Mint(ALICE, 100)`, `Transfer(ALICE, BOB, 99)`,
`Transfer(BOB, ALICE, 5)`). -/
def scenarioBlock : Block :=
  (((scenarioGenesis.next.try_apply_tx (.Mint ⟨1, 100, 2⟩)).2.try_apply_tx
      (.Transfer ⟨1, 2, 99, 2⟩)).2.try_apply_tx
    (.Transfer ⟨2, 1, 5, 2⟩)).2

/-! ## Lemmas on the sorted-association-list model of `BTreeMap` -/

theorem strictSorted_tail {k : Address} {ks : List Address}
    (h : strictSorted (k :: ks) = true) : strictSorted ks = true := by
  cases ks with
  | nil => rfl
  | cons k' rest =>
      have := h
      simp only [strictSorted, Bool.and_eq_true, decide_eq_true_eq] at this
      exact this.2

theorem strictSorted_head_lt {k : Address} {ks : List Address}
    (h : strictSorted (k :: ks) = true) : ∀ k' ∈ ks, k < k' := by
  induction ks generalizing k with
  | nil => intro k' hk'; cases hk'
  | cons k2 rest ih =>
      simp only [strictSorted, Bool.and_eq_true, decide_eq_true_eq] at h
      intro k' hk'
      cases hk' with
      | head => exact h.1
      | tail _ hmem => exact Nat.lt_trans h.1 (ih h.2 k' hmem)

theorem sortedKeys_tail {k : Address} {b : Balance}
    {l : List (Address × Balance)} (h : sortedKeys ((k, b) :: l) = true) :
    sortedKeys l = true :=
  strictSorted_tail (k := k) h

theorem sortedKeys_head_lt {k : Address} {b : Balance}
    {l : List (Address × Balance)} (h : sortedKeys ((k, b) :: l) = true) :
    ∀ p ∈ l, k < p.1 := by
  intro p hp
  exact strictSorted_head_lt (k := k) h p.1 (List.mem_map_of_mem Prod.fst hp)

theorem lookup_eq_none {a : Address} {l : List (Address × Balance)}
    (h : ∀ p ∈ l, a < p.1) : lookup l a = none := by
  induction l with
  | nil => rfl
  | cons p rest ih =>
      obtain ⟨k, b⟩ := p
      have hak : a < k := h (k, b) (List.mem_cons_self _ _)
      simp only [lookup, if_neg (Nat.ne_of_lt hak)]
      exact ih fun q hq => h q (List.mem_cons_of_mem _ hq)

theorem lookup_credit_self {l : List (Address × Balance)} {a : Address}
    {v : Balance} (hs : sortedKeys l = true) :
    lookup (credit l a v) a = some ((lookup l a).getD 0 + v) := by
  induction l with
  | nil => simp [credit, lookup]
  | cons p rest ih =>
      obtain ⟨k, b⟩ := p
      by_cases hlt : a < k
      · have hrest : lookup rest a = none :=
          lookup_eq_none fun q hq => Nat.lt_trans hlt (sortedKeys_head_lt hs q hq)
        simp [credit, hlt, lookup, Nat.ne_of_lt hlt, hrest]
      · by_cases heq : a = k
        · subst heq
          simp [credit, hlt, lookup, Nat.add_comm]
        · simp [credit, hlt, heq, lookup, ih (sortedKeys_tail hs)]

theorem lookup_credit_other {l : List (Address × Balance)} {a a' : Address}
    {v : Balance} (h : a' ≠ a) :
    lookup (credit l a v) a' = lookup l a' := by
  induction l with
  | nil => simp [credit, lookup, h]
  | cons p rest ih =>
      obtain ⟨k, b⟩ := p
      by_cases hlt : a < k
      · simp [credit, hlt, lookup, h]
      · by_cases heq : a = k
        · subst heq
          simp [credit, hlt, lookup, h]
        · by_cases h2 : a' = k
          · simp [credit, hlt, heq, lookup, h2]
          · simp [credit, hlt, heq, lookup, h2, ih]

theorem lookup_setBal_self {l : List (Address × Balance)} {a : Address}
    {b w : Balance} (h : lookup l a = some b) :
    lookup (setBal l a w) a = some w := by
  induction l with
  | nil => cases h
  | cons p rest ih =>
      obtain ⟨k, c⟩ := p
      by_cases heq : a = k
      · simp [setBal, heq, lookup]
      · simp only [lookup, if_neg heq] at h
        simp [setBal, heq, lookup, ih h]

theorem lookup_setBal_other {l : List (Address × Balance)} {a a' : Address}
    {w : Balance} (h : a' ≠ a) :
    lookup (setBal l a w) a' = lookup l a' := by
  induction l with
  | nil => rfl
  | cons p rest ih =>
      obtain ⟨k, c⟩ := p
      by_cases heq : a = k
      · subst heq
        simp [setBal, lookup, h]
      · by_cases h2 : a' = k
        · simp [setBal, heq, lookup, h2]
        · simp [setBal, heq, lookup, h2, ih]

theorem setBal_keys {l : List (Address × Balance)} {a : Address} {w : Balance} :
    (setBal l a w).map Prod.fst = l.map Prod.fst := by
  induction l with
  | nil => rfl
  | cons p rest ih =>
      obtain ⟨k, c⟩ := p
      by_cases heq : a = k
      · simp [setBal, heq]
      · simp [setBal, heq, ih]

theorem sortedKeys_setBal {l : List (Address × Balance)} {a : Address}
    {w : Balance} (hs : sortedKeys l = true) :
    sortedKeys (setBal l a w) = true := by
  unfold sortedKeys
  rw [setBal_keys]
  exact hs

theorem sum_credit {l : List (Address × Balance)} {a : Address} {v : Balance} :
    ((credit l a v).map Prod.snd).sum = (l.map Prod.snd).sum + v := by
  induction l with
  | nil => simp [credit]
  | cons p rest ih =>
      obtain ⟨k, b⟩ := p
      by_cases hlt : a < k
      · simp [credit, hlt]
        ring
      · by_cases heq : a = k
        · simp [credit, hlt, heq]
          ring
        · simp [credit, hlt, heq, ih]
          ring

theorem sum_setBal {l : List (Address × Balance)} {a : Address}
    {b w : Balance} (h : lookup l a = some b) :
    ((setBal l a w).map Prod.snd).sum + b = (l.map Prod.snd).sum + w := by
  induction l with
  | nil => cases h
  | cons p rest ih =>
      obtain ⟨k, c⟩ := p
      by_cases heq : a = k
      · simp only [lookup, if_pos heq, Option.some.injEq] at h
        subst h
        simp only [setBal, if_pos heq, List.map_cons, List.sum_cons]
        ring
      · simp only [lookup, if_neg heq] at h
        simp only [setBal, if_neg heq, List.map_cons, List.sum_cons]
        rw [Nat.add_assoc, ih h, ← Nat.add_assoc]

/-! ## Characterization of `State::apply_tx` -/

theorem apply_transfer_success_iff (s : State) (t : Transfer) :
    (s.apply_tx (.Transfer t)).1 = true ↔
      ∃ bal, lookup s.balances t.«from» = some bal ∧ t.amount ≤ bal := by
  unfold State.apply_tx
  cases hl : lookup s.balances t.«from» with
  | none => simp [hl]
  | some cv =>
      by_cases hlt : cv < t.amount
      · simp only [hl, if_pos hlt]
        constructor
        · intro h
          exact absurd h (by decide)
        · rintro ⟨bal, hb, hle⟩
          injection hb with hb
          subst hb
          exact absurd hlt (Nat.not_lt.mpr hle)
      · simp only [hl, if_neg hlt]
        constructor
        · intro _
          exact ⟨cv, rfl, Nat.not_lt.mp hlt⟩
        · intro _
          trivial

theorem apply_transfer_fail_state (s : State) (t : Transfer)
    (h : (s.apply_tx (.Transfer t)).1 = false) :
    (s.apply_tx (.Transfer t)).2 = s := by
  unfold State.apply_tx at *
  cases hl : lookup s.balances t.«from» with
  | none => simp [hl]
  | some cv =>
      by_cases hlt : cv < t.amount
      · simp [hl, hlt]
      · simp [hl, hlt] at h

theorem apply_transfer_success_state (s : State) (t : Transfer) {cv : Balance}
    (hl : lookup s.balances t.«from» = some cv) (hge : ¬ cv < t.amount) :
    s.apply_tx (.Transfer t) =
      (true,
        ⟨credit (setBal s.balances t.«from» (cv - t.amount)) t.«to» t.amount⟩) := by
  unfold State.apply_tx
  simp [hl, hge]

theorem apply_transfer_self (s : State) (t : Transfer) {cv : Balance}
    (hs : sortedKeys s.balances = true) (heq : t.«from» = t.«to»)
    (hl : lookup s.balances t.«from» = some cv) (hge : ¬ cv < t.amount) :
    ∀ a, lookup (s.apply_tx (.Transfer t)).2.balances a = lookup s.balances a := by
  intro a
  rw [apply_transfer_success_state s t hl hge]
  dsimp only
  rw [← heq]
  by_cases ha : a = t.«from»
  · subst ha
    rw [lookup_credit_self (sortedKeys_setBal hs), lookup_setBal_self hl, hl]
    simp only [Option.getD_some]
    rw [Nat.sub_add_cancel (Nat.not_lt.mp hge)]
  · rw [lookup_credit_other ha, lookup_setBal_other ha]

/-- C3: `Mint` always succeeds, credits `to` by exactly `amount`
(creating the entry when absent, i.e. from default balance 0) and
changes no other account. -/
theorem mint_unconditional (s : State) (m : Mint)
    (hs : sortedKeys s.balances = true) :
    (s.apply_tx (.Mint m)).1 = true ∧
    lookup (s.apply_tx (.Mint m)).2.balances m.«to» =
      some ((lookup s.balances m.«to»).getD 0 + m.amount) ∧
    ∀ a, a ≠ m.«to» →
      lookup (s.apply_tx (.Mint m)).2.balances a = lookup s.balances a := by
  refine ⟨rfl, ?_, ?_⟩
  · exact lookup_credit_self hs
  · intro a ha
    exact lookup_credit_other ha

/-- Witness for C3: minting 12345 to the absent account 2 of the ledger
`{1 ↦ 7}` succeeds, creates `2 ↦ 12345` and leaves account 1 alone. -/
theorem mint_unconditional_witness :
    ((State.mk [(1, 7)]).apply_tx (.Mint ⟨2, 12345, 2⟩)).1 = true ∧
    lookup ((State.mk [(1, 7)]).apply_tx (.Mint ⟨2, 12345, 2⟩)).2.balances 2 =
      some ((lookup (State.mk [(1, 7)]).balances 2).getD 0 + 12345) ∧
    ∀ a, a ≠ 2 →
      lookup ((State.mk [(1, 7)]).apply_tx (.Mint ⟨2, 12345, 2⟩)).2.balances a =
        lookup (State.mk [(1, 7)]).balances a :=
  mint_unconditional (State.mk [(1, 7)]) ⟨2, 12345, 2⟩ (by decide)

/-- C1 counterexample: the claim's success-effect clause fails on a
self-transfer.  On the ledger `{1 ↦ 10}`, `Transfer(1, 1, 5)` succeeds,
yet `balance(1)` does not decrease by 5: it stays 10. -/
theorem transfer_claim_counterexample :
    ((State.mk [(1, 10)]).apply_tx (.Transfer ⟨1, 1, 5, 2⟩)).1 = true ∧
    lookup ((State.mk [(1, 10)]).apply_tx (.Transfer ⟨1, 1, 5, 2⟩)).2.balances 1 ≠
      some (10 - 5) := by
  decide

/-- C1 (amended): a `Transfer` succeeds iff the sender has a recorded
entry with balance at least `amount` (an absent sender fails for every
amount); on success with `from ≠ to`, `balance(from)` decreases and
`balance(to)` increases by exactly `amount` (creating `to` at `amount`
when absent); a successful self-transfer (`from = to`) leaves every
balance unchanged; on failure the ledger is exactly unchanged. -/
theorem transfer_spec (s : State) (t : Transfer)
    (hs : sortedKeys s.balances = true) :
    ((s.apply_tx (.Transfer t)).1 = true ↔
      ∃ bal, lookup s.balances t.«from» = some bal ∧ t.amount ≤ bal) ∧
    ((s.apply_tx (.Transfer t)).1 = true → t.«from» ≠ t.«to» →
      lookup (s.apply_tx (.Transfer t)).2.balances t.«from» =
        some ((lookup s.balances t.«from»).getD 0 - t.amount) ∧
      lookup (s.apply_tx (.Transfer t)).2.balances t.«to» =
        some ((lookup s.balances t.«to»).getD 0 + t.amount)) ∧
    ((s.apply_tx (.Transfer t)).1 = true → t.«from» = t.«to» →
      ∀ a, lookup (s.apply_tx (.Transfer t)).2.balances a = lookup s.balances a) ∧
    ((s.apply_tx (.Transfer t)).1 = false →
      (s.apply_tx (.Transfer t)).2 = s) := by
  refine ⟨apply_transfer_success_iff s t, ?_, ?_, apply_transfer_fail_state s t⟩
  · intro hok hne
    obtain ⟨bal, hl, hle⟩ := (apply_transfer_success_iff s t).mp hok
    have hge : ¬ bal < t.amount := Nat.not_lt.mpr hle
    rw [apply_transfer_success_state s t hl hge]
    dsimp only
    constructor
    · rw [lookup_credit_other hne, lookup_setBal_self hl, hl]
      simp
    · rw [lookup_credit_self (sortedKeys_setBal hs),
        lookup_setBal_other (fun h => hne h.symm)]
  · intro hok heq
    obtain ⟨bal, hl, hle⟩ := (apply_transfer_success_iff s t).mp hok
    exact apply_transfer_self s t hs heq hl (Nat.not_lt.mpr hle)

/-- Witness for C1 (amended): on the ledger `{1 ↦ 10}`,
`Transfer(1, 2, 4)` succeeds and moves the balances to
`1 ↦ 6`, `2 ↦ 4`. -/
theorem transfer_spec_witness :
    ((State.mk [(1, 10)]).apply_tx (.Transfer ⟨1, 2, 4, 2⟩)).1 = true ∧
    lookup ((State.mk [(1, 10)]).apply_tx (.Transfer ⟨1, 2, 4, 2⟩)).2.balances 1 =
      some ((lookup (State.mk [(1, 10)]).balances 1).getD 0 - 4) ∧
    lookup ((State.mk [(1, 10)]).apply_tx (.Transfer ⟨1, 2, 4, 2⟩)).2.balances 2 =
      some ((lookup (State.mk [(1, 10)]).balances 2).getD 0 + 4) :=
  have h := transfer_spec (State.mk [(1, 10)]) ⟨1, 2, 4, 2⟩ (by decide)
  have hok : ((State.mk [(1, 10)]).apply_tx (.Transfer ⟨1, 2, 4, 2⟩)).1 = true := by
    decide
  ⟨hok, h.2.1 hok (by decide)⟩

/-- C10: a self-transfer whose sender has a recorded balance of at least
`amount` succeeds and leaves every balance in the ledger unchanged. -/
theorem self_transfer_noop (s : State) (t : Transfer) (bal : Balance)
    (hs : sortedKeys s.balances = true) (heq : t.«from» = t.«to»)
    (hl : lookup s.balances t.«from» = some bal) (hle : t.amount ≤ bal) :
    (s.apply_tx (.Transfer t)).1 = true ∧
    ∀ a, lookup (s.apply_tx (.Transfer t)).2.balances a = lookup s.balances a := by
  have hge : ¬ bal < t.amount := Nat.not_lt.mpr hle
  constructor
  · rw [apply_transfer_success_state s t hl hge]
  · exact apply_transfer_self s t hs heq hl hge

/-- Witness for C10: on the ledger `{5 ↦ 42}`, `Transfer(5, 5, 41)`
succeeds and every lookup is unchanged (checked at address 5). -/
theorem self_transfer_noop_witness :
    ((State.mk [(5, 42)]).apply_tx (.Transfer ⟨5, 5, 41, 2⟩)).1 = true ∧
    lookup ((State.mk [(5, 42)]).apply_tx (.Transfer ⟨5, 5, 41, 2⟩)).2.balances 5 =
      lookup (State.mk [(5, 42)]).balances 5 :=
  have h := self_transfer_noop (State.mk [(5, 42)]) ⟨5, 5, 41, 2⟩ 42
    (by decide) (by decide) (by decide) (by decide)
  ⟨h.1, h.2 5⟩

/-! ## Conservation of funds -/

theorem totalSupply_apply_mint (s : State) (m : Mint) :
    totalSupply (s.apply_tx (.Mint m)).2 = totalSupply s + m.amount := by
  unfold State.apply_tx totalSupply
  exact sum_credit

theorem totalSupply_apply_transfer (s : State) (t : Transfer) :
    totalSupply (s.apply_tx (.Transfer t)).2 = totalSupply s := by
  by_cases hok : (s.apply_tx (.Transfer t)).1 = true
  · obtain ⟨bal, hl, hle⟩ := (apply_transfer_success_iff s t).mp hok
    have hge : ¬ bal < t.amount := Nat.not_lt.mpr hle
    rw [apply_transfer_success_state s t hl hge]
    unfold totalSupply
    dsimp only
    rw [sum_credit]
    have h2 := sum_setBal (w := bal - t.amount) hl
    have h3 : bal - t.amount + t.amount = bal := Nat.sub_add_cancel hle
    have h4 : ((setBal s.balances t.«from» (bal - t.amount)).map Prod.snd).sum +
        t.amount + bal = (s.balances.map Prod.snd).sum + bal := by
      calc ((setBal s.balances t.«from» (bal - t.amount)).map Prod.snd).sum +
            t.amount + bal
          = ((setBal s.balances t.«from» (bal - t.amount)).map Prod.snd).sum +
            bal + t.amount := by ring
        _ = (s.balances.map Prod.snd).sum + (bal - t.amount) + t.amount := by
            rw [h2]
        _ = (s.balances.map Prod.snd).sum + (bal - t.amount + t.amount) := by ring
        _ = (s.balances.map Prod.snd).sum + bal := by rw [h3]
    exact Nat.add_right_cancel h4
  · have hf : (s.apply_tx (.Transfer t)).1 = false := by
      cases h : (s.apply_tx (.Transfer t)).1
      · rfl
      · exact absurd h hok
    rw [apply_transfer_fail_state s t hf]

theorem conservation_aux (txs : List Transaction) :
    ∀ s, totalSupply (runTxs s txs) = totalSupply s + acceptedMintSum s txs := by
  induction txs with
  | nil =>
      intro s
      simp [runTxs, acceptedMintSum]
  | cons tx rest ih =>
      intro s
      show totalSupply (runTxs (s.apply_tx tx).2 rest) =
        totalSupply s +
          ((match tx, (s.apply_tx tx).1 with
            | .Mint m, true => m.amount
            | _, _ => 0) +
            acceptedMintSum (s.apply_tx tx).2 rest)
      rw [ih]
      cases tx with
      | Mint m =>
          rw [totalSupply_apply_mint]
          have hone : (s.apply_tx (.Mint m)).1 = true := rfl
          rw [hone]
          ring
      | Transfer t =>
          rw [totalSupply_apply_transfer]
          cases hok : (s.apply_tx (.Transfer t)).1 <;> simp

/-- C2: starting from the empty ledger, after any sequence of applied
transactions the total supply equals the sum of the amounts of the
accepted `Mint`s; and any accepted `Transfer` leaves the total supply
unchanged. -/
theorem conservation :
    (∀ txs : List Transaction,
      totalSupply (runTxs State.new txs) = acceptedMintSum State.new txs) ∧
    (∀ (s : State) (t : Transfer), (s.apply_tx (.Transfer t)).1 = true →
      totalSupply (s.apply_tx (.Transfer t)).2 = totalSupply s) := by
  constructor
  · intro txs
    rw [conservation_aux]
    simp [totalSupply, State.new]
  · intro s t _
    exact totalSupply_apply_transfer s t

/-- Witness for C2: on the ledger `{1 ↦ 5}` the accepted
`Transfer(1, 2, 3)` leaves the total supply unchanged. -/
theorem conservation_witness :
    totalSupply ((State.mk [(1, 5)]).apply_tx (.Transfer ⟨1, 2, 3, 2⟩)).2 =
      totalSupply (State.mk [(1, 5)]) :=
  conservation.2 (State.mk [(1, 5)]) ⟨1, 2, 3, 2⟩ (by decide)

/-! ## Block gas accounting -/

/-- C4: every block reachable from a genesis block by `next` transitions
and `try_apply_tx` calls (whatever their outcomes) satisfies
`gas_used = sum of the gas of its transactions` and
`gas_used ≤ gas_limit`. -/
theorem block_gas_invariant (b : Block) (h : Reachable b) :
    b.gas_used = sumGas b.transactions ∧ b.gas_used ≤ b.gas_limit := by
  induction h with
  | genesis gas_limit => exact ⟨rfl, Nat.zero_le _⟩
  | next _ _ => exact ⟨rfl, Nat.zero_le _⟩
  | tryApply tx _ ih =>
      rename_i b' _
      unfold Block.try_apply_tx
      by_cases hg : b'.gas_used + tx.gas > b'.gas_limit
      · simp only [if_pos hg]
        exact ih
      · simp only [if_neg hg]
        cases happ : b'.state.apply_tx tx with
        | mk ok s' =>
            cases ok
            · exact ih
            · dsimp only
              refine ⟨?_, ?_⟩
              · rw [ih.1]
                simp [sumGas]
              · exact Nat.not_lt.mp hg

/-- Witness for C4: the genesis block with gas limit 5 is reachable and
satisfies the gas invariant. -/
theorem block_gas_invariant_witness :
    (Block.genesis 5).gas_used = sumGas (Block.genesis 5).transactions ∧
    (Block.genesis 5).gas_used ≤ (Block.genesis 5).gas_limit :=
  block_gas_invariant (Block.genesis 5) (Reachable.genesis 5)

/-- C5: `try_apply_tx` fails with `GasLimitReached` iff the transaction's
gas would push `gas_used` over `gas_limit`; when the gas check passes it
fails with `InvalidTransaction` iff the ledger rejects the transaction;
on any error the block is exactly unchanged; on success `gas_used` grows
by `tx.gas` and `tx` is appended to the transaction list. -/
theorem try_apply_tx_spec (b : Block) (tx : Transaction) :
    ((b.try_apply_tx tx).1 = .error .GasLimitReached ↔
      b.gas_used + tx.gas > b.gas_limit) ∧
    (¬ b.gas_used + tx.gas > b.gas_limit →
      ((b.try_apply_tx tx).1 = .error .InvalidTransaction ↔
        (b.state.apply_tx tx).1 = false)) ∧
    (∀ e, (b.try_apply_tx tx).1 = .error e → (b.try_apply_tx tx).2 = b) ∧
    ((b.try_apply_tx tx).1 = .ok () →
      (b.try_apply_tx tx).2.gas_used = b.gas_used + tx.gas ∧
      (b.try_apply_tx tx).2.transactions = b.transactions ++ [tx]) := by
  unfold Block.try_apply_tx
  by_cases hg : b.gas_used + tx.gas > b.gas_limit
  · rw [if_pos hg]
    refine ⟨⟨fun _ => hg, fun _ => rfl⟩, fun hng => absurd hg hng,
      fun e _ => rfl, fun h => Except.noConfusion h⟩
  · rw [if_neg hg]
    cases happ : b.state.apply_tx tx with
    | mk ok s' =>
        cases ok
        · dsimp only
          refine ⟨⟨fun h => ?_, fun h => absurd h hg⟩,
            fun _ => ⟨fun _ => rfl, fun _ => rfl⟩,
            fun e _ => rfl, fun h => Except.noConfusion h⟩
          injection h with h
          exact ExecutionError.noConfusion h
        · dsimp only
          refine ⟨⟨fun h => Except.noConfusion h, fun h => absurd h hg⟩,
            fun _ => ⟨fun h => Except.noConfusion h, fun h => ?_⟩,
            fun e h => Except.noConfusion h,
            fun _ => ⟨rfl, rfl⟩⟩
          exact absurd h (by decide)

/-- Witness for C5: on a genesis block with gas limit 0 a mint with gas 2
is rejected with `GasLimitReached`. -/
theorem try_apply_tx_spec_witness :
    ((Block.genesis 0).try_apply_tx (.Mint ⟨1, 9, 2⟩)).1 =
      .error .GasLimitReached :=
  (try_apply_tx_spec (Block.genesis 0) (.Mint ⟨1, 9, 2⟩)).1.mpr (by decide)

/-! ## Codec lemmas -/
theorem putBE_length (k : Nat) : ∀ n, (putBE k n).length = k := by
  induction k with
  | zero => intro n; rfl
  | succ k ih => intro n; simp [putBE, ih]

theorem resize_eq_self {l : List Nat} {n : Nat} (h : l.length = n) :
    resize n l = l := by
  subst h
  simp [resize]

theorem resize_length (n : Nat) (l : List Nat) : (resize n l).length = n := by
  simp only [resize, List.length_append, List.length_take, List.length_replicate]
  omega

theorem getBE_putBE (k : Nat) :
    ∀ (acc n : Nat) (rest : List Nat),
      getBE acc k (putBE k n ++ rest) = some (acc * 256 ^ k + n % 256 ^ k, rest) := by
  induction k with
  | zero =>
      intro acc n rest
      simp [putBE, getBE, Nat.mod_one]
  | succ k ih =>
      intro acc n rest
      have hstep : getBE acc (k + 1) (putBE (k + 1) n ++ rest) =
          getBE (acc * 256 + n / 256 ^ k % 256) k (putBE k n ++ rest) := rfl
      rw [hstep, ih]
      have harith : (acc * 256 + n / 256 ^ k % 256) * 256 ^ k + n % 256 ^ k =
          acc * 256 ^ (k + 1) + n % 256 ^ (k + 1) := by
        rw [Nat.mod_pow_succ]
        ring
      rw [harith]

theorem deserialize_serialize (tx : Transaction) (rest : List Nat) (h : tx.wf) :
    Transaction.deserialize (tx.serialize ++ rest) = some (tx, rest) := by
  cases tx with
  | Mint m =>
      obtain ⟨h1, h2, h3⟩ := h
      have e1 : m.«to» % 4294967296 = m.«to» := Nat.mod_eq_of_lt (lt_of_lt_of_le h1 (by norm_num))
      have e2 : m.amount % 18446744073709551616 = m.amount := Nat.mod_eq_of_lt (lt_of_lt_of_le h2 (by norm_num))
      have e3 : m.gas % 4294967296 = m.gas := Nat.mod_eq_of_lt (lt_of_lt_of_le h3 (by norm_num))
      have hlen : (putU8 0 ++ putU32 m.«to» ++ putU64 m.amount ++ putU32 m.gas).length = 17 := by
        simp [putU8, putU32, putU64, putBE_length]
      simp only [Transaction.serialize]
      rw [resize_eq_self hlen]
      simp [Transaction.deserialize, putU8, putU32, putU64, getU8, getU32, getU64,
        getBE_putBE, e1, e2, e3]
  | Transfer t =>
      obtain ⟨h1, h2, h3, h4⟩ := h
      have e1 : t.«from» % 4294967296 = t.«from» := Nat.mod_eq_of_lt (lt_of_lt_of_le h1 (by norm_num))
      have e2 : t.«to» % 4294967296 = t.«to» := Nat.mod_eq_of_lt (lt_of_lt_of_le h2 (by norm_num))
      have e3 : t.amount % 18446744073709551616 = t.amount := Nat.mod_eq_of_lt (lt_of_lt_of_le h3 (by norm_num))
      have e4 : t.gas % 4294967296 = t.gas := Nat.mod_eq_of_lt (lt_of_lt_of_le h4 (by norm_num))
      have hlen : (putU8 1 ++ putU32 t.«from» ++ putU32 t.«to» ++ putU64 t.amount ++
          putU32 t.gas).length = 21 := by
        simp [putU8, putU32, putU64, putBE_length]
      simp only [Transaction.serialize]
      rw [resize_eq_self hlen]
      simp [Transaction.deserialize, putU8, putU32, putU64, getU8, getU32, getU64,
        getBE_putBE, e1, e2, e3, e4]

/-- C7: the codec round-trips: for every representable transaction,
deserializing its serialization yields the transaction back and consumes
exactly its bytes, leaving the remainder; `Mint` encodes to 17 bytes and
`Transfer` to 21; `Mint{to: 1, amount: 100, gas: 2}` encodes to the fixed
big-endian bytes `00 00000001 0000000000000064 00000002` and decodes back. -/
theorem codec_roundtrip :
    (∀ (tx : Transaction) (rest : List Nat), tx.wf →
      Transaction.deserialize (tx.serialize ++ rest) = some (tx, rest)) ∧
    (∀ m : Mint, (Transaction.serialize (.Mint m)).length = 17) ∧
    (∀ t : Transfer, (Transaction.serialize (.Transfer t)).length = 21) ∧
    Transaction.serialize (.Mint ⟨1, 100, 2⟩) =
      [0x00, 0x00, 0x00, 0x00, 0x01, 0x00, 0x00, 0x00, 0x00, 0x00, 0x00, 0x00,
        0x64, 0x00, 0x00, 0x00, 0x02] ∧
    Transaction.deserialize
        [0x00, 0x00, 0x00, 0x00, 0x01, 0x00, 0x00, 0x00, 0x00, 0x00, 0x00, 0x00,
          0x64, 0x00, 0x00, 0x00, 0x02] =
      some (.Mint ⟨1, 100, 2⟩, []) := by
  refine ⟨fun tx rest h => deserialize_serialize tx rest h, ?_, ?_, by decide, by decide⟩
  · intro m
    simp [Transaction.serialize, resize_length]
  · intro t
    simp [Transaction.serialize, resize_length]

/-- Witness for C7: the round-trip at `Mint{to: 1, amount: 100, gas: 2}`
with a two-byte remainder. -/
theorem codec_roundtrip_witness :
    Transaction.deserialize
        (Transaction.serialize (.Mint ⟨1, 100, 2⟩) ++ [9, 9]) =
      some (.Mint ⟨1, 100, 2⟩, [9, 9]) :=
  codec_roundtrip.1 (.Mint ⟨1, 100, 2⟩) [9, 9] (by decide)

/-- C8: a buffer whose first byte is neither `0x00` nor `0x01` never
decodes to a transaction (the source hits `unreachable!` there, a process
abort, modelled as decode failure); a successful decode implies the
buffer started with tag `0x00` or `0x01`. -/
theorem deserialize_bad_tag :
    (∀ (b : Nat) (rest : List Nat), b ≠ 0 → b ≠ 1 →
      Transaction.deserialize (b :: rest) = none) ∧
    (∀ (data : List Nat) (tx : Transaction) (rest : List Nat),
      Transaction.deserialize data = some (tx, rest) →
      ∃ tail, data = 0 :: tail ∨ data = 1 :: tail) := by
  constructor
  · intro b rest hb0 hb1
    match b, hb0, hb1 with
    | n + 2, _, _ => rfl
  · intro data tx rest h
    cases data with
    | nil => cases h
    | cons b tail =>
        match b with
        | 0 => exact ⟨tail, Or.inl rfl⟩
        | 1 => exact ⟨tail, Or.inr rfl⟩
        | n + 2 => cases h

/-- Witness for C8: a buffer starting with tag 2 fails to decode. -/
theorem deserialize_bad_tag_witness :
    Transaction.deserialize
        [2, 0, 0, 0, 1, 0, 0, 0, 0, 0, 0, 0, 100, 0, 0, 0, 2] = none :=
  deserialize_bad_tag.1 2 [0, 0, 0, 1, 0, 0, 0, 0, 0, 0, 0, 100, 0, 0, 0, 2]
    (by decide) (by decide)


/-! ## The mark-full capacity policy of the batch-drain builder -/

theorem Examples.apply_tx_fail_state (s : Examples.State)
    (tx : Examples.Transaction) (h : (s.apply_tx tx).1 = false) :
    (s.apply_tx tx).2 = s := by
  cases tx with
  | Mint m => exact Bool.noConfusion h
  | Transfer t =>
      unfold Examples.State.apply_tx at *
      cases hl : lookup s.balances t.«from» with
      | none => simp [hl]
      | some cv =>
          by_cases hlt : cv < t.amount
          · simp [hl, hlt]
          · simp [hl, hlt] at h

theorem Examples.applyLoop_cons (tx : Examples.Transaction)
    (rest : List Examples.Transaction) (s : Examples.State) (g : Gas)
    (acc rej : List Examples.Transaction) :
    Examples.applyLoop (tx :: rest) s g acc rej =
      if g + tx.gas_cost > Examples.BLOCK_GAS_LIMIT then
        (s, g, acc, rej ++ tx :: rest)
      else
        match s.apply_tx tx with
        | (true, s') =>
            Examples.applyLoop rest s' (g + tx.gas_cost) (acc ++ [tx]) rej
        | (false, s') => Examples.applyLoop rest s' g acc (rej ++ [tx]) := rfl

theorem Examples.applyLoop_sublist :
    ∀ (txs : List Examples.Transaction) (s : Examples.State) (g : Gas)
      (acc rej : List Examples.Transaction),
      ∃ sub, (Examples.applyLoop txs s g acc rej).2.2.1 = acc ++ sub ∧
        sub.Sublist txs := by
  intro txs
  induction txs with
  | nil =>
      intro s g acc rej
      exact ⟨[], by simp [Examples.applyLoop], List.nil_sublist []⟩
  | cons tx rest ih =>
      intro s g acc rej
      rw [Examples.applyLoop_cons]
      by_cases hg : g + tx.gas_cost > Examples.BLOCK_GAS_LIMIT
      · rw [if_pos hg]
        exact ⟨[], by simp, List.nil_sublist _⟩
      · rw [if_neg hg]
        cases happ : s.apply_tx tx with
        | mk ok s' =>
            cases ok
            · dsimp only
              obtain ⟨sub, heq, hsub⟩ := ih s' g acc (rej ++ [tx])
              exact ⟨sub, heq, List.Sublist.cons tx hsub⟩
            · dsimp only
              obtain ⟨sub, heq, hsub⟩ := ih s' (g + tx.gas_cost) (acc ++ [tx]) rej
              refine ⟨tx :: sub, ?_, List.Sublist.cons₂ tx hsub⟩
              rw [heq]
              simp

/-- C6: when a batch is drained into a block in arrival order, (i) the
accepted transactions form an in-order subsequence of the batch; (ii) the
first transaction whose gas would exceed the budget ends processing —
it and every later transaction are returned as rejected and nothing
further touches the state, the gas counter or the accepted list; (iii) a
transaction rejected as invalid consumes no gas, leaves the state
unchanged and processing continues with the remaining transactions. -/
theorem mark_full_policy :
    (∀ (b : Examples.Block) (txs : List Examples.Transaction),
      (b.create_next_from_txn txs).1.transactions.Sublist txs) ∧
    (∀ (tx : Examples.Transaction) (rest : List Examples.Transaction)
      (s : Examples.State) (g : Gas) (acc rej : List Examples.Transaction),
      g + tx.gas_cost > Examples.BLOCK_GAS_LIMIT →
      Examples.applyLoop (tx :: rest) s g acc rej =
        (s, g, acc, rej ++ tx :: rest)) ∧
    (∀ (tx : Examples.Transaction) (rest : List Examples.Transaction)
      (s : Examples.State) (g : Gas) (acc rej : List Examples.Transaction),
      ¬ g + tx.gas_cost > Examples.BLOCK_GAS_LIMIT →
      (s.apply_tx tx).1 = false →
      Examples.applyLoop (tx :: rest) s g acc rej =
        Examples.applyLoop rest s g acc (rej ++ [tx])) := by
  refine ⟨?_, ?_, ?_⟩
  · intro b txs
    obtain ⟨sub, heq, hsub⟩ :=
      Examples.applyLoop_sublist txs b.final_state 0 [] []
    show (Examples.applyLoop txs b.final_state 0 [] []).2.2.1.Sublist txs
    rw [heq]
    simpa using hsub
  · intro tx rest s g acc rej hg
    rw [Examples.applyLoop_cons, if_pos hg]
  · intro tx rest s g acc rej hg hfail
    rw [Examples.applyLoop_cons, if_neg hg]
    cases happ : s.apply_tx tx with
    | mk ok s' =>
        cases ok
        · dsimp only
          have hs' : s' = s := by
            have h2 := Examples.apply_tx_fail_state s tx (by rw [happ])
            rw [happ] at h2
            exact h2
          rw [hs']
        · have h2 : (s.apply_tx tx).1 = true := by rw [happ]
          rw [hfail] at h2
          exact Bool.noConfusion h2

/-- Witness for C6: with 16 gas already used, a mint (gas cost 5) exceeds
the 20-gas budget: the loop stops at once, rejecting it and the rest of
the batch; and with gas available an invalid transfer is skipped and the
loop continues. -/
theorem mark_full_policy_witness :
    Examples.applyLoop
        [Examples.Transaction.Mint ⟨1, 10⟩, Examples.Transaction.Transfer ⟨1, 2, 3⟩]
        Examples.State.new 16 [] [] =
      (Examples.State.new, 16, [],
        [Examples.Transaction.Mint ⟨1, 10⟩,
          Examples.Transaction.Transfer ⟨1, 2, 3⟩]) ∧
    Examples.applyLoop [Examples.Transaction.Transfer ⟨1, 2, 3⟩]
        Examples.State.new 0 [] [] =
      Examples.applyLoop [] Examples.State.new 0 []
        [Examples.Transaction.Transfer ⟨1, 2, 3⟩] :=
  ⟨mark_full_policy.2.1 (Examples.Transaction.Mint ⟨1, 10⟩)
      [Examples.Transaction.Transfer ⟨1, 2, 3⟩] Examples.State.new 16 [] []
      (by decide),
    mark_full_policy.2.2 (Examples.Transaction.Transfer ⟨1, 2, 3⟩) []
      Examples.State.new 0 [] [] (by decide) (by decide)⟩

/-! ## Determinism of the block root -/

set_option maxRecDepth 10000 in
/-- C9: `root` is a pure function of exactly `(number, transactions,
ledger, gas_used)`: any two blocks agreeing on those four fields — even
with different `gas_limit`s — have equal roots; re-evaluating on the
same block gives the same value; and the spec scenario's genesis block
and its non-empty successor have different roots. -/
theorem root_deterministic :
    (∀ b1 b2 : Block, b1.number = b2.number →
      b1.transactions = b2.transactions → b1.state = b2.state →
      b1.gas_used = b2.gas_used → Block.root b1 = Block.root b2) ∧
    (∀ b : Block, Block.root b = Block.root b) ∧
    Block.root scenarioGenesis ≠ Block.root scenarioBlock := by
  refine ⟨?_, fun _ => rfl, by decide⟩
  intro b1 b2 h1 h2 h3 h4
  unfold Block.root
  rw [h1, h2, h3, h4]

/-- Witness for C9: two blocks identical except for `gas_limit` (20
versus 99) have the same root. -/
theorem root_deterministic_witness :
    Block.root ⟨0, [], State.new, 0, 20⟩ = Block.root ⟨0, [], State.new, 0, 99⟩ :=
  root_deterministic.1 ⟨0, [], State.new, 0, 20⟩ ⟨0, [], State.new, 0, 99⟩
    rfl rfl rfl rfl

end Sui
